import Mathlib

/-!
# Verification of the bank-statement parsing and reconciliation core

Shallow embedding, in Lean 4, of the analysis / parsing core of the
`RelevesBancaires-AI-Analyzer` repository:

* `src/models.py` — `Transaction`, `ReleveBancaire`, coherence check;
* `src/analysis.py` — `parse_period`, `ConsistencyReport`, `analyze_continuity`,
  `merge_statements`;
* `src/charts.py` — `CATEGORIES`, `categorize_transaction`;
* `src/parsers/awb_ocr_parser.py` — `_parse_transaction_line`, `_clean_amount`;
* `main.py` — the "Fusion & Export" selection flow of `show_analysis_section`.

Python `Decimal` values are modelled as exact rationals (`ℚ`).  Text is
modelled as `List Char`; Python's Unicode-aware `upper`/`lower` are modelled
on the character set actually exercised by the code (ASCII plus the accented
letters of the French month table), which is noted at each definition.
Regular-expression matching (the `re` module) is modelled by a small
backtracking matcher whose alternatives are enumerated in Python's
backtracking priority order, so that `.head?` of the result list is exactly
the match `re` returns.
-/

/-! ## Basic text utilities -/

/-- ASCII uppercasing, one character.  Python's `str.upper` is Unicode-aware;
the keyword tables it is compared against in the source are pure ASCII, so
only the ASCII range is relevant to those comparisons. -/
def pyUpperChar (c : Char) : Char := c.toUpper

/-- Model of Python `str.upper` (restricted to the ASCII range, see
`pyUpperChar`). -/
def pyUpper (l : List Char) : List Char := l.map pyUpperChar

/-- Model of Python's substring test `needle in haystack` (`str.__contains__`):
true iff `needle` occurs contiguously in `haystack`; the empty needle occurs
in every string. -/
def occurs : List Char → List Char → Bool
  | needle, [] => needle.isEmpty
  | needle, c :: cs => needle.isPrefixOf (c :: cs) || occurs needle cs

/-! ## Data model (`src/models.py`) -/

/-- A calendar date, the shallow embedding of a Python `datetime` (the
time-of-day part is never used by the code under study). -/
structure DateYMD where
  year : Nat
  month : Nat
  day : Nat
deriving DecidableEq, Repr

/-- `src/models.py` — `@dataclass Transaction`: date, designation and the two
non-negative `Decimal` legs `debit` / `credit` (exactly one is conceptually
active; both fields always present). -/
structure Transaction where
  date : DateYMD
  designation : List Char
  debit : ℚ
  credit : ℚ
deriving DecidableEq, Repr

/-- `Transaction.montant_signe`: `credit - debit`. -/
def Transaction.montant_signe (t : Transaction) : ℚ := t.credit - t.debit

/-- `src/models.py` — `@dataclass ReleveBancaire`. -/
structure ReleveBancaire where
  banque : String
  compte : String
  titulaire : String
  periode : String
  solde_initial : ℚ
  solde_final : ℚ
  transactions : List Transaction

/-- `ReleveBancaire.solde_calcule`: opening balance plus the sum of the signed
transaction amounts. -/
def ReleveBancaire.solde_calcule (r : ReleveBancaire) : ℚ :=
  r.solde_initial + (r.transactions.map Transaction.montant_signe).sum

/-- `ReleveBancaire.is_coherent`:
`abs(solde_calcule - solde_final) < Decimal('0.01')`. -/
def ReleveBancaire.is_coherent (r : ReleveBancaire) : Bool :=
  decide (|r.solde_calcule - r.solde_final| < (1 : ℚ)/100)

/-! ## Debit/credit keyword disambiguation (`src/parsers/awb_ocr_parser.py`)

`_parse_transaction_line` classifies a single amount as debit or credit by
scanning the uppercased description for a fixed keyword list.  The coded-line
branch (lines 227-230 of the source) and the bare date+amount fallback branch
(lines 184-187) carry two distinct literal lists: the coded-line list has the
extra keyword `'CNSS'`. -/

/-- Keyword list of the coded-line (primary pattern) branch, source order. -/
def debit_keywords_main : List (List Char) :=
  ["FRAIS".toList, "PRELEVEMENT".toList, "TIMBRE".toList, "PAIEMENT".toList,
   "RETRAIT".toList, "COMMISSION".toList, "VIREMENT EMIS".toList, "CNSS".toList]

/-- Keyword list of the bare date+amount fallback branch, source order. -/
def debit_keywords_fallback : List (List Char) :=
  ["FRAIS".toList, "PRELEVEMENT".toList, "TIMBRE".toList, "PAIEMENT".toList,
   "RETRAIT".toList, "COMMISSION".toList, "VIREMENT EMIS".toList]

/-- `is_debit` of the coded-line branch: some keyword of
`debit_keywords_main` occurs in the uppercased description. -/
def is_debit_main (libelle : List Char) : Bool :=
  debit_keywords_main.any (fun kw => occurs kw (pyUpper libelle))

/-- `is_debit` of the fallback branch: some keyword of
`debit_keywords_fallback` occurs in the uppercased description. -/
def is_debit_fallback (libelle : List Char) : Bool :=
  debit_keywords_fallback.any (fun kw => occurs kw (pyUpper libelle))

/-! ## Transaction categorizer (`src/charts.py`) -/

/-- `CATEGORIES` of `src/charts.py`, in declaration order (Python dicts
preserve insertion order). -/
def CATEGORIES : List (String × List String) :=
  [("Virements", ["VIREMENT", "VIR", "TRANSFERT", "VERS CLIENT"]),
   ("Salaires", ["SALAIRE", "PAIE", "REMUNERATION"]),
   ("Prélèvements", ["PRELEVEMENT", "PRLV", "SEPA"]),
   ("Frais Bancaires", ["FRAIS", "COMMISSION", "AGIOS", "COTISATION"]),
   ("Loyers", ["LOYER", "BAIL"]),
   ("Chèques", ["CHEQUE", "CHQ"]),
   ("Retraits", ["RETRAIT", "GAB", "DAB"]),
   ("Paiements CB", ["CB ", "CARTE", "VISA", "MASTERCARD"])]

/-- One step of the nested loop of `categorize_transaction`: does some keyword
of the category occur in the uppercased description? -/
def category_matches (libelle : String) (entry : String × List String) : Bool :=
  entry.2.any (fun kw => occurs kw.toList (pyUpper libelle.toList))

/-- `categorize_transaction` of `src/charts.py`: first category (in
`CATEGORIES` order) with a keyword occurring in the uppercased description,
else `"Autres"`. -/
def categorize_transaction (libelle : String) : String :=
  match CATEGORIES.find? (category_matches libelle) with
  | some entry => entry.1
  | none => "Autres"

/-! ## Generic first-match lemma for `List.find?` -/

/-- `find?` returns the element at the first index satisfying the predicate. -/
theorem find?_at_first_index {α : Type} (p : α → Bool) :
    ∀ (l : List α) (i : Nat) (h : i < l.length),
      p (l.get ⟨i, h⟩) = true →
      (∀ j (hj : j < i), p (l.get ⟨j, Nat.lt_trans hj h⟩) = false) →
      l.find? p = some (l.get ⟨i, h⟩) := by
  intro l
  induction l with
  | nil => intro i h; exact absurd h (Nat.not_lt_zero i)
  | cons a t ih =>
    intro i h hp hprev
    cases i with
    | zero =>
      simp only [List.get] at hp
      simp [List.find?, hp]
    | succ n =>
      have ha : p a = false := hprev 0 (Nat.succ_pos n)
      simp only [List.get] at hp ⊢
      simp only [List.find?, ha]
      exact ih n (Nat.lt_of_succ_lt_succ h) hp
        (fun j hj => hprev (j + 1) (Nat.succ_lt_succ hj))

/-! ## C1 — coherence tolerance -/

/-- `Transaction.montant_signe` unfolded. -/
theorem montant_signe_def : Transaction.montant_signe = fun t => t.credit - t.debit := rfl

/-- C1: for every `ReleveBancaire`, `is_coherent` is true iff the absolute
difference between `solde_initial + Σ (credit − debit)` and the declared
`solde_final` is strictly below `0.01` (exact decimal arithmetic); a gap of
exactly `0.01` is not coherent, a gap of `0.009999` is coherent. -/
theorem c1_coherence_tolerance :
    (∀ r : ReleveBancaire,
      r.is_coherent = true ↔
        |r.solde_initial + (r.transactions.map (fun t => t.credit - t.debit)).sum
          - r.solde_final| < (1 : ℚ)/100)
    ∧ (∀ r : ReleveBancaire,
        |r.solde_initial + (r.transactions.map (fun t => t.credit - t.debit)).sum
          - r.solde_final| = (1 : ℚ)/100 → r.is_coherent = false)
    ∧ (∀ r : ReleveBancaire,
        |r.solde_initial + (r.transactions.map (fun t => t.credit - t.debit)).sum
          - r.solde_final| = (9999 : ℚ)/1000000 → r.is_coherent = true) := by
  have hiff : ∀ r : ReleveBancaire,
      r.is_coherent = true ↔
        |r.solde_initial + (r.transactions.map (fun t => t.credit - t.debit)).sum
          - r.solde_final| < (1 : ℚ)/100 := by
    intro r
    simp [ReleveBancaire.is_coherent, ReleveBancaire.solde_calcule, montant_signe_def]
  refine ⟨hiff, ?_, ?_⟩
  · intro r hgap
    cases hcoh : r.is_coherent with
    | false => rfl
    | true =>
      have := (hiff r).mp hcoh
      rw [hgap] at this
      exact absurd this (lt_irrefl _)
  · intro r hgap
    refine (hiff r).mpr ?_
    rw [hgap]
    norm_num

/-- A statement whose declared closing balance misses the computed one by
exactly `0.01`. -/
def releveGapExact : ReleveBancaire :=
  ⟨"Attijariwafa Bank", "000", "T", "01/2025", 0, 1/100, []⟩

/-- A statement whose declared closing balance misses the computed one by
`0.009999`. -/
def releveGapTiny : ReleveBancaire :=
  ⟨"Attijariwafa Bank", "000", "T", "02/2025", 0, 9999/1000000, []⟩

/-- Witness for `c1_coherence_tolerance` at the two boundary statements. -/
theorem c1_coherence_tolerance_witness :
    releveGapExact.is_coherent = false ∧ releveGapTiny.is_coherent = true := by
  constructor
  · apply c1_coherence_tolerance.2.1
    norm_num [releveGapExact]
  · apply c1_coherence_tolerance.2.2
    norm_num [releveGapTiny]

/-! ## C7 — keyword disambiguation of the two line-parsing strategies -/

/-- C7 counterexample: the claim "both strategies classify the amount as debit
exactly when the same fixed keyword set matches" is false — the description
`"VERSEMENT CNSS"` is classified debit by the coded-line strategy (whose list
contains `'CNSS'`) and credit by the fallback strategy (whose list does not). -/
theorem c7_counterexample :
    is_debit_main "VERSEMENT CNSS".toList = true ∧
    is_debit_fallback "VERSEMENT CNSS".toList = false :=
  ⟨by decide, by decide⟩

/-- C7 amended: the two keyword lists differ exactly by the extra coded-line
keyword `'CNSS'`; on every description whose uppercase form does not contain
`'CNSS'`, the two strategies apply the same keyword-based debit/credit
disambiguation. -/
theorem c7_amended_same_disambiguation :
    ∀ l : List Char, occurs "CNSS".toList (pyUpper l) = false →
      is_debit_main l = is_debit_fallback l := by
  intro l h
  have h2 : occurs ['C', 'N', 'S', 'S'] (pyUpper l) = false := h
  simp [is_debit_main, is_debit_fallback, debit_keywords_main,
    debit_keywords_fallback, h2]

/-- Witness for `c7_amended_same_disambiguation` at a concrete description. -/
theorem c7_amended_witness :
    occurs "CNSS".toList (pyUpper "FRAIS DE TENUE".toList) = false ∧
    is_debit_main "FRAIS DE TENUE".toList = is_debit_fallback "FRAIS DE TENUE".toList :=
  ⟨by decide, c7_amended_same_disambiguation _ (by decide)⟩

/-! ## C9 — categorizer determinism -/

/-- C9: `categorize_transaction` uppercases the description, tests the
categories in declaration order of `CATEGORIES`, returns the first category
with a matching keyword and `"Autres"` when none matches; a description
holding keywords of two categories (here `VIREMENT` of `"Virements"` and
`SALAIRE` of `"Salaires"`) resolves to the one declared first. -/
theorem c9_categorizer_first_match :
    (∀ lib : String, (∀ e ∈ CATEGORIES, category_matches lib e = false) →
        categorize_transaction lib = "Autres")
    ∧ (∀ lib : String, ∀ i (h : i < CATEGORIES.length),
        category_matches lib (CATEGORIES.get ⟨i, h⟩) = true →
        (∀ j (hj : j < i), category_matches lib (CATEGORIES.get ⟨j, Nat.lt_trans hj h⟩) = false) →
        categorize_transaction lib = (CATEGORIES.get ⟨i, h⟩).1)
    ∧ categorize_transaction "VIREMENT SALAIRE" = "Virements" := by
  refine ⟨?_, ?_, by decide⟩
  · intro lib hn
    have hfind : CATEGORIES.find? (category_matches lib) = none := by
      rw [List.find?_eq_none]
      intro x hx
      simpa using hn x hx
    simp [categorize_transaction, hfind]
  · intro lib i h hp hprev
    have hfind := find?_at_first_index (category_matches lib) CATEGORIES i h hp hprev
    simp [categorize_transaction, hfind]

/-- There are more than seven categories in the table. -/
theorem cat_len6 : (6 : Nat) < CATEGORIES.length := by decide

/-- Witness for `c9_categorizer_first_match` at a concrete description whose
category sits behind six non-matching categories. -/
theorem c9_witness :
    categorize_transaction "RETRAIT GAB 0123" = "Retraits" :=
  c9_categorizer_first_match.2.1 "RETRAIT GAB 0123" 6 cat_len6 (by decide) (by decide)

/-! ## Period resolution (`src/analysis.py` — `parse_period`) -/

/-- A statement period, the shallow embedding of the `datetime(year, month, 1)`
values produced by `parse_period` (the day is always 1). -/
structure Period where
  year : Nat
  month : Nat
deriving DecidableEq, Repr

/-- Python whitespace, as recognized by `str.split()` (ASCII range). -/
def isWsChar (c : Char) : Bool :=
  c = ' ' || c = '\t' || c = '\n' || c = '\r' || c = '\x0b' || c = '\x0c'

/-- ASCII decimal digit.  Python's `\d` (and `int`) also accept non-ASCII
Unicode digits; the statements under study only carry ASCII digits. -/
def isDigitCh (c : Char) : Bool := c.isDigit

/-- Model of Python `str.lower` on the characters the code exercises: ASCII
letters plus the accented capitals of French month names. -/
def pyLowerChar (c : Char) : Char :=
  if c = 'É' then 'é' else if c = 'È' then 'è' else if c = 'Ê' then 'ê'
  else if c = 'À' then 'à' else if c = 'Â' then 'â' else if c = 'Û' then 'û'
  else if c = 'Ù' then 'ù' else if c = 'Î' then 'î' else if c = 'Ô' then 'ô'
  else if c = 'Ç' then 'ç' else c.toLower

/-- Helper of `splitWs`: accumulates the current word (reversed). -/
def splitWsAux : List Char → List Char → List (List Char)
  | [], acc => if acc.isEmpty then [] else [acc.reverse]
  | c :: cs, acc =>
    if isWsChar c then
      if acc.isEmpty then splitWsAux cs [] else acc.reverse :: splitWsAux cs []
    else splitWsAux cs (c :: acc)

/-- Model of Python `str.split()` (no argument): split on whitespace runs,
discarding empty fields. -/
def splitWs (l : List Char) : List (List Char) := splitWsAux l []

/-- Digit string to number, most significant first. -/
def digitsToNat (l : List Char) : Nat :=
  l.foldl (fun n c => n * 10 + (c.toNat - '0'.toNat)) 0

/-- Model of Python `int(token)` on a whitespace-free token: optional sign
followed by a non-empty digit string (the `_` digit-group separators Python
also accepts never reach this code). -/
def pyIntOfToken (l : List Char) : Option Int :=
  match l with
  | '-' :: ds => if ds ≠ [] && ds.all isDigitCh then some (-(digitsToNat ds : Int)) else none
  | '+' :: ds => if ds ≠ [] && ds.all isDigitCh then some ((digitsToNat ds : Int)) else none
  | ds => if ds ≠ [] && ds.all isDigitCh then some ((digitsToNat ds : Int)) else none

/-- The anchored regex `^(\d{1,2})-(\d{4})$` of `parse_period`, returning
`(month, year)` digit values.  The leading digit group is a maximal run, so
the match succeeds exactly when that run has length 1 or 2 and is followed by
`-` and exactly four digits ending the string. -/
def mmDashYyyy (l : List Char) : Option (Nat × Nat) :=
  let p := l.span isDigitCh
  if 1 ≤ p.1.length ∧ p.1.length ≤ 2 then
    match p.2 with
    | '-' :: ys =>
      if ys.length = 4 ∧ ys.all isDigitCh then some (digitsToNat p.1, digitsToNat ys) else none
    | _ => none
  else none

/-- Model of `datetime.strptime(s, "%m/%Y")`, returning `(year, month)`.
CPython's `_strptime` compiles `%m` to `\d{1,2}` and `%Y` to `\d{4}`, requires
the whole string to match, and raising on an invalid month or year is folded
into `none` (the caller catches the `ValueError` either way). -/
def strptime_mY (l : List Char) : Option (Nat × Nat) :=
  let p := l.span isDigitCh
  if 1 ≤ p.1.length ∧ p.1.length ≤ 2 then
    match p.2 with
    | '/' :: ys =>
      if ys.length = 4 ∧ ys.all isDigitCh then
        let m := digitsToNat p.1
        let y := digitsToNat ys
        if 1 ≤ m ∧ m ≤ 12 ∧ 1 ≤ y then some (y, m) else none
      else none
    | _ => none
  else none

/-- The `months_fr` table of `parse_period`, in source order. -/
def months_fr : List (List Char × Nat) :=
  [("janvier".toList, 1), ("février".toList, 2), ("mars".toList, 3),
   ("avril".toList, 4), ("mai".toList, 5), ("juin".toList, 6),
   ("juillet".toList, 7), ("août".toList, 8), ("septembre".toList, 9),
   ("octobre".toList, 10), ("novembre".toList, 11), ("décembre".toList, 12)]

/-- The `"Mois YYYY"` recognizer of `parse_period`: lowercase the string,
split on whitespace, require at least two fields with the first a French
month name; returns the month number and the last field (the year token,
still to be `int`-parsed). -/
def frMonthTok (l : List Char) : Option (Nat × List Char) :=
  match splitWs (l.map pyLowerChar) with
  | p0 :: p1 :: rest =>
    match months_fr.find? (fun e => e.1 = p0) with
    | some e => some (e.2, (p1 :: rest).getLastD [])
    | none => none
  | _ => none

/-- `parse_period` of `src/analysis.py` on the character list.  Every failing
construction (`datetime` with an out-of-range field, a failing `strptime`, a
failing `int`) lands in the function's bare `except`, which returns the
sentinel `datetime(2000, 1, 1)`. -/
def parsePeriodL (l : List Char) : Period :=
  match mmDashYyyy l with
  | some (m, y) => if 1 ≤ m ∧ m ≤ 12 ∧ 1 ≤ y then ⟨y, m⟩ else ⟨2000, 1⟩
  | none =>
    if '/' ∈ l then
      match strptime_mY l with
      | some (y, m) => ⟨y, m⟩
      | none => ⟨2000, 1⟩
    else
      match frMonthTok l with
      | some (m, yTok) =>
        match pyIntOfToken yTok with
        | some y => if 1 ≤ y ∧ y ≤ 9999 then ⟨y.toNat, m⟩ else ⟨2000, 1⟩
        | none => ⟨2000, 1⟩
      | none =>
        match strptime_mY l with
        | some (y, m) => ⟨y, m⟩
        | none => ⟨2000, 1⟩

/-- `parse_period` on a `String`. -/
def parse_period (s : String) : Period := parsePeriodL s.toList

/-- Modelled from the claim's wording: the resolver recognizes, in order,
numeric `mm-yyyy`, numeric `mm/yyyy` (any slash-holding label is claimed by
this recognizer), and a French month name followed by a year; every other
input — including out-of-range months — yields the fixed sentinel period,
January 2000. -/
def claim_period_resolver (l : List Char) : Period :=
  match mmDashYyyy l with
  | some (m, y) => if 1 ≤ m ∧ m ≤ 12 ∧ 1 ≤ y then ⟨y, m⟩ else ⟨2000, 1⟩
  | none =>
    if '/' ∈ l then
      match strptime_mY l with
      | some (y, m) => ⟨y, m⟩
      | none => ⟨2000, 1⟩
    else
      match frMonthTok l with
      | some (m, yTok) =>
        match pyIntOfToken yTok with
        | some y => if 1 ≤ y ∧ y ≤ 9999 then ⟨y.toNat, m⟩ else ⟨2000, 1⟩
        | none => ⟨2000, 1⟩
      | none => ⟨2000, 1⟩

/-! ## C4 — totality and recognition order of the period resolver -/

/-- Ordering of periods, the Boolean form of `datetime` comparison on the
`datetime(year, month, 1)` values `parse_period` produces (lexicographic on
year then month; the day is constant). -/
def periodLe (a b : Period) : Bool :=
  decide (a.year < b.year ∨ (a.year = b.year ∧ a.month ≤ b.month))

/-- `strptime(s, "%m/%Y")` can only succeed on a string holding a slash. -/
theorem strptime_mY_none_of_no_slash (l : List Char) (hs : '/' ∉ l) :
    strptime_mY l = none := by
  simp only [strptime_mY]
  split
  · split
    · rename_i ys heq
      exfalso
      apply hs
      have hdrop : List.dropWhile isDigitCh l = '/' :: ys := by
        rw [List.span_eq_take_drop] at heq
        exact heq
      have hmem : '/' ∈ List.dropWhile isDigitCh l := by
        rw [hdrop]
        exact List.mem_cons_self _ _
      exact (List.dropWhile_sublist isDigitCh).mem hmem
    · rfl
  · rfl

/-- A successful `strptime(s, "%m/%Y")` yields a valid month and year. -/
theorem strptime_mY_bounds {l : List Char} {y m : Nat}
    (h : strptime_mY l = some (y, m)) : 1 ≤ m ∧ m ≤ 12 ∧ 1 ≤ y := by
  simp only [strptime_mY] at h
  split at h
  · split at h
    · split at h
      · split at h
        · rename_i hb
          injection h with h2
          injection h2 with hy hm
          subst hy
          subst hm
          exact hb
        · exact absurd h (by simp)
      · exact absurd h (by simp)
    · exact absurd h (by simp)
  · exact absurd h (by simp)

/-- Every month number of the French month table is between 1 and 12. -/
theorem months_fr_bounds : ∀ e ∈ months_fr, 1 ≤ e.2 ∧ e.2 ≤ 12 := by decide

/-- A successful `"Mois YYYY"` recognition yields a month between 1 and 12. -/
theorem frMonthTok_bounds {l : List Char} {m : Nat} {t : List Char}
    (h : frMonthTok l = some (m, t)) : 1 ≤ m ∧ m ≤ 12 := by
  simp only [frMonthTok] at h
  split at h
  · rename_i p0 p1 rest heq
    cases hf : List.find? (fun e => e.1 = p0) months_fr with
    | none => rw [hf] at h; exact absurd h (by simp)
    | some e =>
      rw [hf] at h
      injection h with h2
      injection h2 with hm ht
      subst hm
      exact months_fr_bounds e (List.mem_of_find?_eq_some hf)
  · exact absurd h (by simp)

/-- Every period `parse_period` can produce is a valid `datetime` argument:
month in `1..12`, year at least 1.  This is what makes sorting of resolved
periods total. -/
theorem parsePeriodL_valid (l : List Char) :
    1 ≤ (parsePeriodL l).month ∧ (parsePeriodL l).month ≤ 12 ∧
      1 ≤ (parsePeriodL l).year := by
  unfold parsePeriodL
  split
  · split
    · rename_i hb
      exact ⟨hb.1, hb.2.1, hb.2.2⟩
    · exact ⟨by decide, by decide, by decide⟩
  · split
    · split
      · rename_i y m heq
        have hb := strptime_mY_bounds heq
        exact ⟨hb.1, hb.2.1, hb.2.2⟩
      · exact ⟨by decide, by decide, by decide⟩
    · rename_i hs
      split
      · rename_i m t heq
        split
        · rename_i y heq2
          split
          · rename_i hy
            have hm := frMonthTok_bounds heq
            refine ⟨hm.1, hm.2, ?_⟩
            show 1 ≤ Int.toNat y
            omega
          · exact ⟨by decide, by decide, by decide⟩
        · exact ⟨by decide, by decide, by decide⟩
      · rw [strptime_mY_none_of_no_slash l hs]
        exact ⟨by decide, by decide, by decide⟩

/-- The source `parse_period` and the resolver transcribed from the claim
agree everywhere: the only structural difference, the trailing
`strptime(period_str, "%m/%Y")` fallback of the source, can never succeed on
a slash-free string. -/
theorem parsePeriodL_eq_claim (l : List Char) :
    parsePeriodL l = claim_period_resolver l := by
  unfold parsePeriodL claim_period_resolver
  cases hdash : mmDashYyyy l with
  | some v => rfl
  | none =>
    by_cases hs : '/' ∈ l
    · simp only [hs, if_true]
    · simp only [hs, if_false]
      cases hfr : frMonthTok l with
      | some v => rfl
      | none => rw [strptime_mY_none_of_no_slash l hs]

/-- C4: `parse_period` returns a value for every input and never raises: it
recognizes, in order, numeric `mm-yyyy`, numeric `mm/yyyy`, and a French
month name followed by a year, and every other input — including out-of-range
months — yields the fixed sentinel period January 2000 (so any set of period
labels resolves to totally comparable periods and sorting cannot fail). -/
theorem c4_period_resolver_spec :
    (∀ s : String, parse_period s = claim_period_resolver s.toList)
    ∧ (∀ s : String, 1 ≤ (parse_period s).month ∧ (parse_period s).month ≤ 12
        ∧ 1 ≤ (parse_period s).year)
    ∧ (∀ a b : Period, periodLe a b = true ∨ periodLe b a = true)
    ∧ parse_period "01-2025" = ⟨2025, 1⟩
    ∧ parse_period "02/2025" = ⟨2025, 2⟩
    ∧ parse_period "février 2025" = ⟨2025, 2⟩
    ∧ parse_period "13-2025" = ⟨2000, 1⟩
    ∧ parse_period "00-2025" = ⟨2000, 1⟩
    ∧ parse_period "n.a. garbage" = ⟨2000, 1⟩ := by
  refine ⟨fun s => parsePeriodL_eq_claim s.toList,
    fun s => parsePeriodL_valid s.toList, ?_,
    by decide, by decide, by decide, by decide, by decide, by decide⟩
  intro a b
  simp only [periodLe, decide_eq_true_eq]
  omega

/-! ## C2 — continuity analysis (`src/analysis.py`) -/

/-- The dictionary rows `analyze_continuity` consumes (one row per stored
statement), restricted to the keys the function reads: the period label and
the two declared balances.  `Decimal(str(...))` applied to them in
`ConsistencyReport.__init__` is the identity on exact values. -/
structure RelRow where
  periode : String
  solde_initial : ℚ
  solde_final : ℚ

/-- `ConsistencyReport` of `src/analysis.py`. -/
structure ConsistencyReport where
  current_period : Period
  next_period : Period
  current_end_balance : ℚ
  next_start_balance : ℚ
  is_consistent : Bool
  gap : ℚ
  months_diff : Int
  is_consecutive : Bool

/-- `ConsistencyReport.__init__` on an adjacent (earlier, later) pair of
period-enriched rows. -/
def mkConsistencyReport (cur next : RelRow × Period) : ConsistencyReport :=
  { current_period := cur.2
    next_period := next.2
    current_end_balance := cur.1.solde_final
    next_start_balance := next.1.solde_initial
    is_consistent := decide (|cur.1.solde_final - next.1.solde_initial| < (1 : ℚ)/100)
    gap := next.1.solde_initial - cur.1.solde_final
    months_diff := ((next.2.year : Int) - (cur.2.year : Int)) * 12
      + ((next.2.month : Int) - (cur.2.month : Int))
    is_consecutive := decide (((next.2.year : Int) - (cur.2.year : Int)) * 12
      + ((next.2.month : Int) - (cur.2.month : Int)) = 1) }

/-- Step 1 of `analyze_continuity`: copy the row and attach
`period_obj = parse_period(r['periode'])`. -/
def enrichRow (r : RelRow) : RelRow × Period := (r, parse_period r.periode)

/-- `analyze_continuity` of `src/analysis.py`: enrich with the resolved
period, sort ascending by it (Python's `sorted` is stable, as is
`List.mergeSort`), and build one `ConsistencyReport` per adjacent pair. -/
def analyze_continuity (rs : List RelRow) : List ConsistencyReport :=
  let s := (rs.map enrichRow).mergeSort (fun a b => periodLe a.2 b.2)
  (s.zip s.tail).map (fun p => mkConsistencyReport p.1 p.2)

/-- Zipping a list with its own tail yields one pair per adjacent position. -/
theorem zip_tail_length {α : Type} (l : List α) :
    (l.zip l.tail).length = l.length - 1 := by
  rw [List.length_zip, List.length_tail]
  omega

/-- C2: `analyze_continuity` sorts the statements ascending by resolved
period and returns exactly `n − 1` reports (empty output for `n ≤ 1`), one
per adjacent sorted pair; each report has `gap` = later opening − earlier
closing, `is_consistent` ⇔ `|gap| < 0.01`, `months_diff` = year distance × 12
+ month distance of the resolved periods, and `is_consecutive` ⇔
`months_diff = 1`. -/
theorem c2_continuity_reports :
    (∀ rs : List RelRow, (analyze_continuity rs).length = rs.length - 1)
    ∧ (∀ rs : List RelRow, ∃ s : List (RelRow × Period),
        s.Perm (rs.map enrichRow) ∧
        s.Pairwise (fun a b => periodLe a.2 b.2 = true) ∧
        analyze_continuity rs = (s.zip s.tail).map (fun p => mkConsistencyReport p.1 p.2))
    ∧ (∀ cur next : RelRow × Period,
        (mkConsistencyReport cur next).gap
          = (mkConsistencyReport cur next).next_start_balance
            - (mkConsistencyReport cur next).current_end_balance
        ∧ ((mkConsistencyReport cur next).is_consistent = true ↔
            |(mkConsistencyReport cur next).gap| < (1 : ℚ)/100)
        ∧ (mkConsistencyReport cur next).months_diff
          = (((mkConsistencyReport cur next).next_period.year : Int)
              - ((mkConsistencyReport cur next).current_period.year : Int)) * 12
            + (((mkConsistencyReport cur next).next_period.month : Int)
              - ((mkConsistencyReport cur next).current_period.month : Int))
        ∧ ((mkConsistencyReport cur next).is_consecutive = true ↔
            (mkConsistencyReport cur next).months_diff = 1)) := by
  refine ⟨?_, ?_, ?_⟩
  · intro rs
    unfold analyze_continuity
    rw [List.length_map, zip_tail_length, List.length_mergeSort, List.length_map]
  · intro rs
    refine ⟨(rs.map enrichRow).mergeSort (fun a b => periodLe a.2 b.2),
      List.mergeSort_perm _ _, ?_, rfl⟩
    apply List.sorted_mergeSort
    · intro a b c hab hbc
      simp only [periodLe, decide_eq_true_eq] at *
      omega
    · intro a b
      simp only [periodLe, Bool.or_eq_true, decide_eq_true_eq]
      omega
  · intro cur next
    refine ⟨rfl, ?_, rfl, ?_⟩
    · simp only [mkConsistencyReport, decide_eq_true_eq]
      rw [abs_sub_comm]
    · simp only [mkConsistencyReport, decide_eq_true_eq]

/-! ## Ledger merge (`src/analysis.py` — `merge_statements`, and the
"Fusion & Export" flow of `main.py`) -/

/-- Gregorian leap year, as implemented by Python's `datetime`. -/
def isLeapYear (y : Nat) : Bool := y % 4 = 0 && (y % 100 ≠ 0 || y % 400 = 0)

/-- Days in a month, as enforced by Python's `datetime`. -/
def daysInMonth (y m : Nat) : Nat :=
  if m = 2 then (if isLeapYear y then 29 else 28)
  else if m = 4 ∨ m = 6 ∨ m = 9 ∨ m = 11 then 30 else 31

/-- Model of parsing one value with format `'%Y-%m-%d'` (`pd.to_datetime`
compiles the format to `\d{4}-\d{1,2}-\d{1,2}` and validates the calendar
fields, as CPython's `_strptime` does). -/
def parseDateYmd (l : List Char) : Option DateYMD :=
  let a := l.span isDigitCh
  if a.1.length = 4 then
    match a.2 with
    | '-' :: r1 =>
      let b := r1.span isDigitCh
      if 1 ≤ b.1.length ∧ b.1.length ≤ 2 then
        match b.2 with
        | '-' :: r2 =>
          if 1 ≤ r2.length ∧ r2.length ≤ 2 ∧ r2.all isDigitCh then
            let y := digitsToNat a.1
            let m := digitsToNat b.1
            let d := digitsToNat r2
            if 1 ≤ y ∧ 1 ≤ m ∧ m ≤ 12 ∧ 1 ≤ d ∧ d ≤ daysInMonth y m then
              some ⟨y, m, d⟩
            else none
          else none
        | _ => none
      else none
    | _ => none
  else none

/-- Lexicographic date comparison (how `datetime64` values compare). -/
def dateLe (a b : DateYMD) : Bool :=
  decide (a.year < b.year ∨ (a.year = b.year ∧ (a.month < b.month ∨
    (a.month = b.month ∧ a.day ≤ b.day))))

/-- A stored transaction row, as `db.get_releve_transactions` returns it and
as the dictionaries of `merge_statements`' test fixtures carry it: the date
is the `'%Y-%m-%d'` text written by the database layer. -/
structure TxRow where
  date : String
  designation : String
  debit : ℚ
  credit : ℚ
deriving DecidableEq, Repr

/-- Row comparison used while sorting `merge_statements`' frame: compare the
converted `date_obj` values (only reached when every date converted). -/
def txDateLe (a b : TxRow) : Bool :=
  dateLe ((parseDateYmd a.date.toList).getD ⟨0, 0, 0⟩)
    ((parseDateYmd b.date.toList).getD ⟨0, 0, 0⟩)

/-- `merge_statements` of `src/analysis.py`: concatenate the batches; an
empty concatenation yields an empty frame; otherwise convert the `date`
column with `pd.to_datetime(..., format='%Y-%m-%d')` — which raises as soon
as one date fails, caught by the bare `except: pass` that keeps the original
order — and sort by it.  The tie order of `DataFrame.sort_values` (default
`kind='quicksort'`) is not specified by pandas; the sort is modelled with a
by-date `mergeSort`, and no theorem below depends on the tie order. -/
def merge_statements (batches : List (List TxRow)) : List TxRow :=
  let all_tx := batches.flatten
  if all_tx.isEmpty then []
  else if all_tx.all (fun r => (parseDateYmd r.date.toList).isSome) then
    all_tx.mergeSort txDateLe
  else all_tx

/-- A stored statement as the "Fusion & Export" section of `main.py` reads it
back from the database: its id, period label, declared balances and rows. -/
structure StoredReleve where
  id : Nat
  periode : String
  solde_initial : ℚ
  solde_final : ℚ
  transactions : List TxRow
deriving DecidableEq, Repr

/-- `sorted(account_releves, key=lambda x: x['periode'])`: sort by the raw
period label (string comparison). -/
def sortedByPeriode (rels : List StoredReleve) : List StoredReleve :=
  rels.mergeSort (fun a b => decide (a.periode ≤ b.periode))

/-- The transaction-gathering loop of the merge button: walk the
periode-sorted statements, keep the selected ones, tag every row with its
source period (`t['periode'] = r['periode']`) and concatenate. -/
def all_selected_transactions (selected : List Nat) (rels : List StoredReleve) :
    List (TxRow × String) :=
  ((sortedByPeriode rels).filter (fun r => selected.contains r.id)).flatMap
    (fun r => r.transactions.map (fun t => (t, r.periode)))

/-- Ledger-row comparison of `main.py`'s merge: dates are converted with
`errors='coerce'`, and rows whose date failed to convert (`NaT`) sort last
(`na_position='last'`). -/
def coerceDateLe (a b : TxRow × String) : Bool :=
  match parseDateYmd a.1.date.toList, parseDateYmd b.1.date.toList with
  | some da, some db => dateLe da db
  | some _, none => true
  | none, some _ => false
  | none, none => true

/-- The running-balance loop: `solde = solde + credit - debit` per row,
collecting each intermediate value. -/
def runningBalances (solde : ℚ) : List (TxRow × String) → List ℚ
  | [] => []
  | r :: rest =>
    let s := solde + r.1.credit - r.1.debit
    s :: runningBalances s rest

/-- Outcome of pressing the merge button in `show_analysis_section`: the code
answers an empty selection with `st.warning("Sélectionnez au moins une
période.")`, an empty gathered transaction list with
`st.warning("Aucune transaction trouvée.")`, and otherwise renders the
sorted, balance-annotated ledger.  No exception type exists on any path. -/
inductive MergeOutcome where
  | warnEmptySelection : MergeOutcome
  | warnNoTransactions : MergeOutcome
  | ledger : List (TxRow × String) → List ℚ → MergeOutcome
deriving DecidableEq

/-- The merge-button flow of `show_analysis_section` (`main.py`): guard on an
empty selection, gather the selected statements' rows, guard on an empty
gathering, then sort by coerced date and fold the running balance starting
from the opening balance of the first selected statement. -/
def show_merge_flow (selected : List Nat) (rels : List StoredReleve) : MergeOutcome :=
  if selected.isEmpty then .warnEmptySelection
  else
    let all_transactions := all_selected_transactions selected rels
    if all_transactions.isEmpty then .warnNoTransactions
    else
      let first := (sortedByPeriode rels).find? (fun r => selected.headD 0 = r.id)
      let s0 : ℚ := (first.map StoredReleve.solde_initial).getD 0
      let rows := all_transactions.mergeSort coerceDateLe
      .ledger rows (runningBalances s0 rows)

/-! ## C5 — behaviour of the merge on empty selections -/

/-- A concrete stored statement used by the C5 refutation. -/
def demoStoredReleve : StoredReleve :=
  ⟨1, "01/2025", 100, 150, [⟨"2025-01-05", "VIR RECU", 0, 50⟩]⟩

/-- A concrete stored statement carrying no transactions. -/
def demoEmptyReleve : StoredReleve := ⟨3, "02/2025", 150, 150, []⟩

/-- C5 counterexample: no `EmptySelection` error exists anywhere in the code.
Selecting zero statements makes `show_analysis_section` display a warning and
skip the merge (it does not raise), and `merge_statements` itself maps an
empty selection to an empty ledger. -/
theorem c5_counterexample :
    show_merge_flow [] [demoStoredReleve] = MergeOutcome.warnEmptySelection ∧
    merge_statements [] = [] :=
  ⟨rfl, rfl⟩

/-- C5 amended: the merge never raises.  Zero statements selected yields the
"select at least one period" warning (UI path) and an empty ledger from
`merge_statements`; a selection whose statements carry zero transactions
yields the "no transaction found" warning and, in `merge_statements`, an
empty ledger. -/
theorem c5_amended_no_error :
    (∀ rels : List StoredReleve, show_merge_flow [] rels = MergeOutcome.warnEmptySelection)
    ∧ (∀ batches : List (List TxRow), batches.flatten = [] → merge_statements batches = [])
    ∧ (∀ (sel : List Nat) (rels : List StoredReleve), sel ≠ [] →
        all_selected_transactions sel rels = [] →
        show_merge_flow sel rels = MergeOutcome.warnNoTransactions) := by
  refine ⟨fun rels => rfl, ?_, ?_⟩
  · intro batches h
    unfold merge_statements
    rw [h]
    rfl
  · intro sel rels hsel hempty
    unfold show_merge_flow
    rw [hempty]
    have : sel.isEmpty = false := by
      cases sel with
      | nil => exact absurd rfl hsel
      | cons a t => rfl
    rw [this]
    rfl

/-- Witness for `c5_amended_no_error` at concrete inputs. -/
theorem c5_amended_witness :
    merge_statements [[], []] = [] ∧
    show_merge_flow [3] [demoEmptyReleve] = MergeOutcome.warnNoTransactions :=
  ⟨c5_amended_no_error.2.1 [[], []] rfl,
   c5_amended_no_error.2.2 [3] [demoEmptyReleve] (by decide)
     (by with_unfolding_all rfl)⟩

/-! ## C10 — `merge_statements` preserves the rows and never fails -/

/-- C10: `merge_statements` is total; its output rows are exactly the rows of
the concatenated batches (none added, dropped or modified — the output is a
permutation of the concatenation); all-empty batches give an empty result;
and as soon as one date fails to convert the rows come back in their original
concatenation order. -/
theorem c10_merge_statements_safety :
    (∀ batches : List (List TxRow), (merge_statements batches).Perm batches.flatten)
    ∧ (∀ batches : List (List TxRow),
        (∃ r ∈ batches.flatten, parseDateYmd r.date.toList = none) →
        merge_statements batches = batches.flatten)
    ∧ (∀ batches : List (List TxRow), (∀ b ∈ batches, b = []) →
        merge_statements batches = []) := by
  refine ⟨?_, ?_, ?_⟩
  · intro batches
    simp only [merge_statements]
    split
    · rename_i he
      rw [List.isEmpty_iff.mp he]
    · split
      · exact List.mergeSort_perm _ _
      · exact List.Perm.refl _
  · intro batches h
    obtain ⟨r, hr, hnone⟩ := h
    have hne : batches.flatten.isEmpty = false := by
      cases hf : batches.flatten with
      | nil => rw [hf] at hr; exact absurd hr (List.not_mem_nil r)
      | cons a t => rfl
    have hall : batches.flatten.all (fun r => (parseDateYmd r.date.toList).isSome) = false := by
      rw [List.all_eq_false]
      exact ⟨r, hr, by rw [hnone]; simp⟩
    simp only [merge_statements]
    rw [hne, hall]
    rfl
  · intro batches h
    have hnil : batches.flatten = [] := List.flatten_eq_nil_iff.mpr h
    simp only [merge_statements]
    rw [hnil]
    rfl

/-- A row whose date text does not convert with `'%Y-%m-%d'`. -/
def rowBadDate : TxRow := ⟨"not a date", "X", 0, 5⟩

/-- A row whose date text converts. -/
def rowGoodDate : TxRow := ⟨"2024-01-05", "Y", 3, 0⟩

/-- Witness for `c10_merge_statements_safety` at concrete inputs. -/
theorem c10_witness :
    merge_statements [[rowBadDate], [rowGoodDate]] = [rowBadDate, rowGoodDate] ∧
    merge_statements [[], []] = [] :=
  ⟨c10_merge_statements_safety.2.1 [[rowBadDate], [rowGoodDate]]
      ⟨rowBadDate, by decide, by decide⟩,
   c10_merge_statements_safety.2.2 [[], []] (by decide)⟩

/-! ## C8 — the amount cleaner (`AWBOCRParser._clean_amount`) -/

/-- Boolean test for the decimal marker. -/
def isDotCh (c : Char) : Bool := c = '.'

/-- Boolean test for "not the decimal marker". -/
def notDotCh (c : Char) : Bool := !(c = '.')

/-- Number of decimal markers left in a token. -/
def countDots (m : List Char) : Nat := (m.filter isDotCh).length

/-- Model of Python `cleaned.split('.')`: the (never empty) list of
`'.'`-free segments, one more than the number of dots. -/
def splitDot : List Char → List (List Char)
  | [] => [[]]
  | c :: cs =>
    match splitDot cs with
    | [] => [[c]]
    | h :: t => if c = '.' then [] :: h :: t else (c :: h) :: t

/-- `str.replace(' ', '')` then `str.replace(',', '.')` of `_clean_amount`. -/
def normalizeAmount (l : List Char) : List Char :=
  (l.filter (fun c => !(c = ' '))).map (fun c => if c = ',' then '.' else c)

/-- `AWBOCRParser._clean_amount`: empty input gives `'0'`; strip spaces and
turn commas into periods; when more than one period remains, re-join all
segments but the last and keep one final decimal marker. -/
def clean_amount (l : List Char) : List Char :=
  if l.isEmpty then "0".toList
  else
    let cleaned := normalizeAmount l
    let parts := splitDot cleaned
    if 2 < parts.length then parts.dropLast.flatten ++ '.' :: parts.getLastD []
    else cleaned

/-- Modelled from the claim's wording: strip all spaces, replace every comma
with a period; if more than one period then remains, keep only the last
period as the decimal marker — everything after it is the fraction,
everything before it, its periods removed, is the integer part; an empty
token yields `'0'`. -/
def clean_amount_claim (l : List Char) : List Char :=
  if l.isEmpty then "0".toList
  else
    let cleaned := normalizeAmount l
    if 1 < countDots cleaned then
      ((cleaned.reverse.dropWhile notDotCh).tail).reverse.filter notDotCh
        ++ '.' :: (cleaned.reverse.takeWhile notDotCh).reverse
    else cleaned

/-- `splitDot` never returns an empty list of segments. -/
theorem splitDot_ne_nil : ∀ m : List Char, splitDot m ≠ [] := by
  intro m
  cases m with
  | nil => simp [splitDot]
  | cons c cs =>
    cases h : splitDot cs with
    | nil => simp [splitDot, h]
    | cons hd tl =>
      by_cases hc : c = '.' <;> simp [splitDot, h, hc]

/-- `splitDot` produces one segment more than the number of dots. -/
theorem length_splitDot : ∀ m : List Char, (splitDot m).length = countDots m + 1 := by
  intro m
  induction m with
  | nil => rfl
  | cons c cs ih =>
    cases h : splitDot cs with
    | nil => exact absurd h (splitDot_ne_nil cs)
    | cons hd tl =>
      rw [h] at ih
      by_cases hc : c = '.'
      · simp [splitDot, h, hc, countDots, isDotCh, List.filter_cons]
        simpa [countDots, isDotCh] using ih
      · simp [splitDot, h, hc, countDots, isDotCh, List.filter_cons]
        simpa [countDots, isDotCh] using ih

/-- A dot-free token is split into a single segment. -/
theorem splitDot_of_no_dot : ∀ m : List Char, '.' ∉ m → splitDot m = [m] := by
  intro m
  induction m with
  | nil => intro h; rfl
  | cons c cs ih =>
    intro h
    have hc : ¬c = '.' := fun hc => h (hc ▸ List.mem_cons_self c cs)
    have hcs : '.' ∉ cs := fun hm => h (List.mem_cons_of_mem c hm)
    rw [splitDot, ih hcs]
    simp [hc]

/-- A token containing a dot has a positive dot count. -/
theorem countDots_pos_of_mem : ∀ m : List Char, '.' ∈ m → 0 < countDots m := by
  intro m h
  have : '.' ∈ m.filter isDotCh := List.mem_filter.mpr ⟨h, by simp [isDotCh]⟩
  cases hf : m.filter isDotCh with
  | nil => rw [hf] at this; exact absurd this (List.not_mem_nil _)
  | cons a t => simp [countDots, hf]

/-- On a dot-free list, `takeWhile notDotCh` keeps everything. -/
theorem takeWhile_notDot_of_no_dot {A : List Char} (h : '.' ∉ A) :
    A.takeWhile notDotCh = A :=
  List.takeWhile_eq_self_iff.mpr (fun x hx => by
    simp only [notDotCh, Bool.not_eq_true']
    exact decide_eq_false (fun he => h (he ▸ hx)))

/-- On a dot-free list, `dropWhile notDotCh` drops everything. -/
theorem dropWhile_notDot_of_no_dot {A : List Char} (h : '.' ∉ A) :
    A.dropWhile notDotCh = [] :=
  List.dropWhile_eq_nil_iff.mpr (fun x hx => by
    simp only [notDotCh, Bool.not_eq_true']
    exact decide_eq_false (fun he => h (he ▸ hx)))

/-- On a list holding a dot, `takeWhile notDotCh` is a strict prefix. -/
theorem takeWhile_notDot_length_ne {A : List Char} (h : '.' ∈ A) :
    ¬(A.takeWhile notDotCh).length = A.length := by
  intro hlen
  have heq : A.takeWhile notDotCh = A :=
    (List.takeWhile_prefix notDotCh).eq_of_length hlen
  have := List.takeWhile_eq_self_iff.mp heq '.' h
  simp [notDotCh] at this

/-- On a list holding a dot, `dropWhile notDotCh` is non-empty. -/
theorem dropWhile_notDot_ne_empty {A : List Char} (h : '.' ∈ A) :
    (A.dropWhile notDotCh).isEmpty = false := by
  rw [List.isEmpty_eq_false]
  intro hnil
  have := List.dropWhile_eq_nil_iff.mp hnil '.' h
  simp [notDotCh] at this

/-- The last segment of `splitDot` is the run of non-dot characters at the
end of the token. -/
theorem splitDot_last : ∀ m : List Char,
    (splitDot m).getLastD [] = (m.reverse.takeWhile notDotCh).reverse := by
  intro m
  induction m with
  | nil => rfl
  | cons c cs ih =>
    cases h : splitDot cs with
    | nil => exact absurd h (splitDot_ne_nil cs)
    | cons hd tl =>
      rw [h] at ih
      by_cases hc : c = '.'
      · have hstep : (splitDot (c :: cs)).getLastD [] = (hd :: tl).getLastD [] := by
          rw [splitDot, h]
          simp [hc, List.getLastD_cons]
        rw [hstep, ih, hc, List.reverse_cons, List.takeWhile_append]
        by_cases hdot : '.' ∈ cs
        · rw [if_neg]
          intro hlen
          exact takeWhile_notDot_length_ne ((List.mem_reverse).mpr hdot)
            (by simpa using hlen)
        · rw [if_pos, takeWhile_notDot_of_no_dot (fun hm => hdot ((List.mem_reverse).mp hm))]
          · simp [List.takeWhile, notDotCh]
          · rw [takeWhile_notDot_of_no_dot (fun hm => hdot ((List.mem_reverse).mp hm))]
      · have hstep : splitDot (c :: cs) = (c :: hd) :: tl := by
          rw [splitDot, h]
          simp [hc]
        by_cases hdot : '.' ∈ cs
        · have htl : tl ≠ [] := by
            have hlen := length_splitDot cs
            rw [h] at hlen
            have hpos := countDots_pos_of_mem cs hdot
            intro hnil
            rw [hnil] at hlen
            simp at hlen
            omega
          have h1 : (splitDot (c :: cs)).getLastD [] = tl.getLastD (c :: hd) := by
            rw [hstep, List.getLastD_cons]
          have h2 : (hd :: tl).getLastD [] = tl.getLastD hd := List.getLastD_cons _ _ _
          have hind : tl.getLastD (c :: hd) = tl.getLastD hd := by
            rw [List.getLastD_eq_getLast?, List.getLastD_eq_getLast?]
            cases hopt : tl.getLast? with
            | none => exact absurd (List.getLast?_eq_none_iff.mp hopt) htl
            | some a => rfl
          rw [h1, hind, ← h2, ih, List.reverse_cons, List.takeWhile_append, if_neg]
          intro hlen
          exact takeWhile_notDot_length_ne ((List.mem_reverse).mpr hdot)
            (by simpa using hlen)
        · have hsingle : splitDot cs = [cs] :=
            splitDot_of_no_dot cs hdot
          rw [hsingle] at h
          injection h with h1 h2
          subst h1
          subst h2
          rw [hstep]
          have hnom : '.' ∉ (c :: cs).reverse := by
            intro hm
            rcases (List.mem_reverse).mp hm with hm2
            rcases List.mem_cons.mp hm2 with h3 | h3
            · exact hc h3.symm
            · exact hdot h3
          rw [takeWhile_notDot_of_no_dot hnom]
          simp

/-- Joining all segments of `splitDot` but the last recovers exactly the
characters standing before the last dot, with the dots dropped. -/
theorem splitDot_head_part : ∀ m : List Char,
    (splitDot m).dropLast.flatten
      = ((m.reverse.dropWhile notDotCh).tail).reverse.filter notDotCh := by
  intro m
  induction m with
  | nil => rfl
  | cons c cs ih =>
    cases h : splitDot cs with
    | nil => exact absurd h (splitDot_ne_nil cs)
    | cons hd tl =>
      rw [h] at ih
      by_cases hc : c = '.'
      · have hstep : splitDot (c :: cs) = [] :: hd :: tl := by
          rw [splitDot, h]
          simp [hc]
        rw [hstep, List.dropLast_cons_of_ne_nil (List.cons_ne_nil hd tl),
          List.flatten_cons, List.nil_append, ih, hc, List.reverse_cons,
          List.dropWhile_append]
        by_cases hdot : '.' ∈ cs
        · have hne := dropWhile_notDot_ne_empty ((List.mem_reverse).mpr hdot)
          rw [hne]
          simp only [Bool.false_eq_true, if_false]
          rw [List.tail_append, hne]
          simp only [Bool.false_eq_true, if_false]
          rw [List.reverse_append]
          simp [notDotCh, List.filter_append]
        · have hnil := dropWhile_notDot_of_no_dot
            (fun hm => hdot ((List.mem_reverse).mp hm))
          rw [hnil]
          simp [List.dropWhile, notDotCh]
      · have hstep : splitDot (c :: cs) = (c :: hd) :: tl := by
          rw [splitDot, h]
          simp [hc]
        by_cases hdot : '.' ∈ cs
        · have htl : tl ≠ [] := by
            have hlen := length_splitDot cs
            rw [h] at hlen
            have hpos := countDots_pos_of_mem cs hdot
            intro hnil
            rw [hnil] at hlen
            simp at hlen
            omega
          rw [hstep, List.dropLast_cons_of_ne_nil htl, List.flatten_cons]
          have hlhs : (hd :: tl).dropLast.flatten = hd ++ tl.dropLast.flatten := by
            rw [List.dropLast_cons_of_ne_nil htl, List.flatten_cons]
          rw [hlhs] at ih
          rw [List.reverse_cons, List.dropWhile_append]
          have hne := dropWhile_notDot_ne_empty ((List.mem_reverse).mpr hdot)
          rw [hne]
          simp only [Bool.false_eq_true, if_false]
          rw [List.tail_append, hne]
          simp only [Bool.false_eq_true, if_false]
          rw [List.reverse_append]
          have hcnd : notDotCh c = true := by simp [notDotCh, hc]
          simp only [List.reverse_cons, List.reverse_nil, List.nil_append,
            List.singleton_append, List.filter_cons, hcnd]
          rw [← ih]
          simp
        · have hsingle : splitDot cs = [cs] := splitDot_of_no_dot cs hdot
          rw [hsingle] at h
          injection h with h1 h2
          subst h1
          subst h2
          rw [hstep]
          have hnom : '.' ∉ (c :: cs).reverse := by
            intro hm
            rcases List.mem_cons.mp ((List.mem_reverse).mp hm) with h3 | h3
            · exact hc h3.symm
            · exact hdot h3
          rw [dropWhile_notDot_of_no_dot hnom]
          simp

/-- C8: `_clean_amount` strips all spaces, replaces every comma with a
period, and when more than one period remains keeps only the last one as the
decimal marker, concatenating every character standing before it (its periods
removed) as the integer part; an empty token yields `'0'`. -/
theorem c8_clean_amount_spec :
    (∀ l : List Char, clean_amount l = clean_amount_claim l)
    ∧ clean_amount "1 234,56".toList = "1234.56".toList
    ∧ clean_amount "1.234,56".toList = "1234.56".toList
    ∧ clean_amount "12,345,67".toList = "12345.67".toList
    ∧ clean_amount [] = "0".toList := by
  refine ⟨?_, by decide, by decide, by decide, rfl⟩
  intro l
  simp only [clean_amount, clean_amount_claim]
  by_cases he : l.isEmpty
  · simp [he]
  · simp only [he, Bool.false_eq_true, if_false]
    by_cases hd : 1 < countDots (normalizeAmount l)
    · rw [if_pos (by rw [length_splitDot]; omega), if_pos hd,
        splitDot_last, splitDot_head_part]
    · rw [if_neg (by rw [length_splitDot]; omega), if_neg hd]

/-! ## C6 — the transaction line parser (`AWBOCRParser._parse_transaction_line`)

The two patterns of `_parse_transaction_line` are embedded with a small
backtracking matcher.  A matcher takes the remaining input and returns every
(captured value, rest) alternative, ordered exactly as Python's `re` engine
explores them (greedy pieces longest-first, lazy pieces shortest-first,
sequencing depth-first), so the head of the list is the match `re` keeps.
Every quantified piece of both patterns is a single-character class, which
lets alternatives of a quantifier be enumerated as prefixes of the maximal
run of that class. -/

/-- A backtracking matcher: all (capture, rest) alternatives in priority
order. -/
def RxM (α : Type) : Type := List Char → List (α × List Char)

instance : Monad RxM where
  pure a := fun s => [(a, s)]
  bind m f := fun s => (m s).flatMap (fun p => f p.1 p.2)

/-- Match one character of a class. -/
def rxClass (p : Char → Bool) : RxM Char := fun s =>
  match s with
  | [] => []
  | c :: rest => if p c then [(c, rest)] else []

/-- The descending list `[top, top-1, ..., lo]` (empty when `top < lo`). -/
def countdown (top lo : Nat) : List Nat :=
  (List.range (top + 1 - lo)).map (fun i => top - i)

/-- Alternatives splitting the input at each of the given positions. -/
def rxAlts (ks : List Nat) (s : List Char) : List (List Char × List Char) :=
  ks.map (fun k => (s.take k, s.drop k))

/-- Greedy `p*`: longest prefix of the class run first. -/
def rxStar (p : Char → Bool) : RxM (List Char) := fun s =>
  rxAlts (countdown (s.takeWhile p).length 0) s

/-- Greedy `p+`. -/
def rxPlus (p : Char → Bool) : RxM (List Char) := fun s =>
  rxAlts (countdown (s.takeWhile p).length 1) s

/-- Greedy bounded `p{lo,hi}`. -/
def rxRep (p : Char → Bool) (lo hi : Nat) : RxM (List Char) := fun s =>
  rxAlts (countdown ((s.takeWhile p).take hi).length lo) s

/-- Lazy `p*?`: shortest prefix first. -/
def rxLazyStar (p : Char → Bool) : RxM (List Char) := fun s =>
  rxAlts (List.range ((s.takeWhile p).length + 1)) s

/-- Lazy `p+?`: shortest non-empty prefix first. -/
def rxLazyPlus (p : Char → Bool) : RxM (List Char) := fun s =>
  rxAlts ((List.range (s.takeWhile p).length).map (fun i => i + 1)) s

/-- Exactly `n` characters of a class. -/
def rxExactly (p : Char → Bool) (n : Nat) : RxM (List Char) := fun s =>
  if (s.take n).length = n ∧ (s.take n).all p then [(s.take n, s.drop n)] else []

/-- Greedy optional group. -/
def rxOpt {α : Type} (m : RxM α) : RxM (Option α) := fun s =>
  (m s).map (fun p => (some p.1, p.2)) ++ [(none, s)]

/-- `[\dO]+` class of the transaction-code prefix. -/
def isDigitORx (c : Char) : Bool := c.isDigit || c = 'O'

/-- `[A-Z]{0,3}` class. -/
def isUpperAZ (c : Char) : Bool := 'A' ≤ c && c ≤ 'Z'

/-- `.` — any character except a newline (lines never carry one, having been
produced by `text.split('\n')`). -/
def dotAny (c : Char) : Bool := !(c = '\n')

/-- `[/\|]`. -/
def isSlashPipe (c : Char) : Bool := c = '/' || c = '|'

/-- `[\]\}\|]`. -/
def isCloseBr (c : Char) : Bool := c = ']' || c = '}' || c = '|'

/-- `[\[\{\|]`. -/
def isOpenBr (c : Char) : Bool := c = '[' || c = '{' || c = '|'

/-- `[,\.]`. -/
def isCommaDot (c : Char) : Bool := c = ',' || c = '.'

/-- `[\s\d]`. -/
def isWsOrDigit (c : Char) : Bool := isWsChar c || c.isDigit

/-- The amount group `(\d+[\s\d]*[,\.]\d{2})` shared by both patterns. -/
def rxAmount : RxM (List Char) := do
  let d1 ← rxPlus isDigitCh
  let mid ← rxStar isWsOrDigit
  let sep ← rxClass isCommaDot
  let f ← rxExactly isDigitCh 2
  pure (d1 ++ mid ++ sep :: f)

/-- The captures of the coded-line pattern, groups 1-8. -/
structure MainGroups where
  opDay : List Char
  opMonth : List Char
  libelle : List Char
  valDay : List Char
  valMonth : List Char
  valYear : List Char
  amount1 : Option (List Char)
  amount2 : Option (List Char)
deriving DecidableEq, Repr

/-- The coded-line pattern of `_parse_transaction_line`:
`^\s*[\dO]+[A-Z]{0,3}[/\|](\d{1,2})\s+(\d{1,2})[\]\}\|]\s*(.+?)\s+`
`[\[\{\|]?(\d{1,2})\s+(\d{1,2})\s+(\d{4})\s*(\d+[\s\d]*[,\.]\d{2})?\s*`
`(\d+[\s\d]*[,\.]\d{2})?`. -/
def rxMainPattern : RxM MainGroups := do
  let _ ← rxStar isWsChar
  let _ ← rxPlus isDigitORx
  let _ ← rxRep isUpperAZ 0 3
  let _ ← rxClass isSlashPipe
  let g1 ← rxRep isDigitCh 1 2
  let _ ← rxPlus isWsChar
  let g2 ← rxRep isDigitCh 1 2
  let _ ← rxClass isCloseBr
  let _ ← rxStar isWsChar
  let g3 ← rxLazyPlus dotAny
  let _ ← rxPlus isWsChar
  let _ ← rxOpt (rxClass isOpenBr)
  let g4 ← rxRep isDigitCh 1 2
  let _ ← rxPlus isWsChar
  let g5 ← rxRep isDigitCh 1 2
  let _ ← rxPlus isWsChar
  let g6 ← rxExactly isDigitCh 4
  let _ ← rxStar isWsChar
  let g7 ← rxOpt rxAmount
  let _ ← rxStar isWsChar
  let g8 ← rxOpt rxAmount
  pure ⟨g1, g2, g3, g4, g5, g6, g7, g8⟩

/-- `pattern.match(line)`: the first alternative of the anchored pattern. -/
def mainMatch (l : List Char) : Option MainGroups :=
  (rxMainPattern l).head?.map Prod.fst

/-- The captures of the fallback pattern: the length consumed before group 1
(`alt_match.start(1)`) and groups 1-4. -/
structure AltGroups where
  preLen : Nat
  day : List Char
  month : List Char
  year : List Char
  amount : List Char
deriving DecidableEq, Repr

/-- The fallback pattern `.*?(\d{1,2})\s+(\d{1,2})\s+(\d{4})\s+`
`(\d+[\s\d]*[,\.]\d{2})\s*`, searched with `re.search`; the leading lazy
`.*?` makes the anchored enumeration identical to the search. -/
def rxAltPattern : RxM AltGroups := do
  let pre ← rxLazyStar dotAny
  let g1 ← rxRep isDigitCh 1 2
  let _ ← rxPlus isWsChar
  let g2 ← rxRep isDigitCh 1 2
  let _ ← rxPlus isWsChar
  let g3 ← rxExactly isDigitCh 4
  let _ ← rxPlus isWsChar
  let g4 ← rxAmount
  let _ ← rxStar isWsChar
  pure ⟨pre.length, g1, g2, g3, g4⟩

/-- `alt_pattern.search(line)`. -/
def altSearch (l : List Char) : Option AltGroups :=
  (rxAltPattern l).head?.map Prod.fst

/-- The code-prefix pattern
`^[\dO]+[A-Z]{0,3}[/\|]\d+\s+\d+[\]\}\|]\s*` that `re.sub` strips from the
fallback description. -/
def rxCodeHead : RxM Unit := do
  let _ ← rxPlus isDigitORx
  let _ ← rxRep isUpperAZ 0 3
  let _ ← rxClass isSlashPipe
  let _ ← rxPlus isDigitCh
  let _ ← rxPlus isWsChar
  let _ ← rxPlus isDigitCh
  let _ ← rxClass isCloseBr
  let _ ← rxStar isWsChar
  pure ()

/-- `re.sub(code_prefix, '', s)` with an anchored pattern: drop the matched
prefix when it matches, else leave the string unchanged. -/
def subCodeHead (l : List Char) : List Char :=
  match (rxCodeHead l).head? with
  | some p => p.2
  | none => l

/-- Python `str.strip()`: drop whitespace at both ends. -/
def pyStrip (l : List Char) : List Char :=
  ((l.dropWhile isWsChar).reverse.dropWhile isWsChar).reverse

/-- Unsigned part of Python `Decimal(str)` on plain fixed-point tokens:
digits, an optional single point, at least one digit overall.  (Exponents,
`NaN`/`Infinity` and grouping underscores never reach this code: its inputs
come out of `_clean_amount`.) -/
def parseUnsignedDec (l : List Char) : Option ℚ :=
  let p := l.span isDigitCh
  match p.2 with
  | [] => if p.1.isEmpty then none else some ((digitsToNat p.1 : ℚ))
  | '.' :: fr =>
    if fr.all isDigitCh ∧ (¬p.1.isEmpty ∨ ¬fr.isEmpty) then
      some (mkRat (digitsToNat p.1 * 10 ^ fr.length + digitsToNat fr) (10 ^ fr.length))
    else none
  | _ => none

/-- Python `Decimal(str)` with an optional sign. -/
def parseDecQ (l : List Char) : Option ℚ :=
  match l with
  | '-' :: rest => (parseUnsignedDec rest).map Neg.neg
  | '+' :: rest => parseUnsignedDec rest
  | rest => parseUnsignedDec rest

/-- `datetime.strptime(f"{d}/{m}/{y}", "%d/%m/%Y")` at the value level: the
zero-filled groups parse back to their numeric values, and construction
succeeds exactly on a valid Gregorian calendar date with a positive year. -/
def mkValidDate (y m d : Nat) : Option DateYMD :=
  if 1 ≤ y ∧ y ≤ 9999 ∧ 1 ≤ m ∧ m ≤ 12 ∧ 1 ≤ d ∧ d ≤ daysInMonth y m then
    some ⟨y, m, d⟩
  else none

/-- `Decimal(self._clean_amount(s))` on the two-amount path of the source,
which is not guarded by any `try`.  On every amount group whose inner
separators are plain spaces the parse succeeds; an exotic whitespace
character (e.g. a tab, which `[\s\d]*` admits but `_clean_amount` does not
strip) would make the Python call raise `InvalidOperation` — the embedding
folds that path to amount 0, and no theorem below depends on it. -/
def decimalOrZero (s : List Char) : ℚ := (parseDecQ (clean_amount s)).getD 0

/-- `AWBOCRParser._parse_transaction_line`: try the coded-line pattern, then
the bare date+amount fallback; resolve the value date, the amounts and the
debit/credit side exactly as the source does.  The `default_year` /
`default_month` parameters are accepted and, as in the source, never read. -/
def parse_transaction_line (l : List Char) (default_year default_month : Nat) :
    Option Transaction :=
  match mainMatch l with
  | some g =>
    let libelle := pyStrip g.libelle
    match mkValidDate (digitsToNat g.valYear) (digitsToNat g.valMonth)
        (digitsToNat g.valDay) with
    | none => none
    | some d =>
      let sides : ℚ × ℚ :=
        match g.amount1, g.amount2 with
        | some a1, some a2 => (decimalOrZero a1, decimalOrZero a2)
        | some a1, none =>
          let amount := decimalOrZero a1
          if is_debit_main libelle then (amount, 0) else ((0 : ℚ), amount)
        | none, _ => ((0 : ℚ), (0 : ℚ))
      if sides.1 = 0 ∧ sides.2 = 0 then none
      else some ⟨d, libelle, sides.1, sides.2⟩
  | none =>
    match altSearch l with
    | some a =>
      let pre_date := pyStrip (l.take a.preLen)
      let libelle := pyStrip (subCodeHead pre_date)
      if libelle.isEmpty then none
      else
        match mkValidDate (digitsToNat a.year) (digitsToNat a.month)
            (digitsToNat a.day) with
        | none => none
        | some d =>
          match parseDecQ (clean_amount a.amount) with
          | none => none
          | some amount =>
            if is_debit_fallback libelle then some ⟨d, libelle, amount, 0⟩
            else some ⟨d, libelle, 0, amount⟩
    | none => none

/-- C6 counterexample: a line matched by the bare date+amount fallback whose
single amount is zero yields a `Transaction` with `debit = credit = 0` — the
claim's "resolved debit and credit both zero ⇒ no Transaction" fails on the
fallback path, which carries no zero-amount filter. -/
theorem c6_counterexample :
    parse_transaction_line "VIREMENT RECU 05 01 2024 0,00".toList 2025 1
      = some ⟨⟨2024, 1, 5⟩, "VIREMENT RECU".toList, 0, 0⟩ := by
  with_unfolding_all rfl

/-- C6 amended: the line parser yields no `Transaction` (raising nothing)
when the line matches neither the coded-line pattern nor the fallback, when
the matched value date is not a valid calendar date (either path), when — on
the coded-line path — the resolved debit and credit are both zero, or when —
on the fallback path — the stripped description is empty; boilerplate and
header lines never produce a `Transaction`.  (The fallback path applies no
zero-amount filter, see `c6_counterexample`.) -/
theorem c6_amended_skip_conditions :
    (∀ (l : List Char) (y m : Nat), mainMatch l = none → altSearch l = none →
        parse_transaction_line l y m = none)
    ∧ (∀ (l : List Char) (y m : Nat) (g : MainGroups), mainMatch l = some g →
        mkValidDate (digitsToNat g.valYear) (digitsToNat g.valMonth)
          (digitsToNat g.valDay) = none →
        parse_transaction_line l y m = none)
    ∧ (∀ (l : List Char) (y m : Nat) (g : MainGroups) (t : Transaction),
        mainMatch l = some g → parse_transaction_line l y m = some t →
        ¬(t.debit = 0 ∧ t.credit = 0))
    ∧ (∀ (l : List Char) (y m : Nat) (a : AltGroups), mainMatch l = none →
        altSearch l = some a →
        mkValidDate (digitsToNat a.year) (digitsToNat a.month)
          (digitsToNat a.day) = none →
        parse_transaction_line l y m = none)
    ∧ (∀ (l : List Char) (y m : Nat) (a : AltGroups), mainMatch l = none →
        altSearch l = some a →
        pyStrip (subCodeHead (pyStrip (l.take a.preLen))) = [] →
        parse_transaction_line l y m = none)
    ∧ parse_transaction_line "RELEVE DE COMPTE BANCAIRE".toList 2025 1 = none
    ∧ parse_transaction_line "DATE VALEUR LIBELLE DEBIT CREDIT".toList 2025 1
        = none := by
  refine ⟨?_, ?_, ?_, ?_, ?_, by decide, by decide⟩
  · intro l y m h1 h2
    simp only [parse_transaction_line, h1, h2]
  · intro l y m g h1 h2
    simp only [parse_transaction_line, h1, h2]
  · intro l y m g t h1 h2
    simp only [parse_transaction_line, h1] at h2
    rcases hd : mkValidDate (digitsToNat g.valYear) (digitsToNat g.valMonth)
        (digitsToNat g.valDay) with _ | d
    · rw [hd] at h2
      exact absurd h2 (by simp)
    · rw [hd] at h2
      simp only [] at h2
      by_cases hc : (match g.amount1, g.amount2 with
          | some a1, some a2 => ((decimalOrZero a1, decimalOrZero a2) : ℚ × ℚ)
          | some a1, none =>
            if is_debit_main (pyStrip g.libelle) then (decimalOrZero a1, 0)
            else ((0 : ℚ), decimalOrZero a1)
          | none, _ => ((0 : ℚ), (0 : ℚ))).1 = 0 ∧
          (match g.amount1, g.amount2 with
          | some a1, some a2 => ((decimalOrZero a1, decimalOrZero a2) : ℚ × ℚ)
          | some a1, none =>
            if is_debit_main (pyStrip g.libelle) then (decimalOrZero a1, 0)
            else ((0 : ℚ), decimalOrZero a1)
          | none, _ => ((0 : ℚ), (0 : ℚ))).2 = 0
      · rw [if_pos hc] at h2
        exact absurd h2 (by simp)
      · rw [if_neg hc] at h2
        injection h2 with h3
        subst h3
        exact fun hcc => hc ⟨hcc.1, hcc.2⟩
  · intro l y m a h1 h2 h3
    simp only [parse_transaction_line, h1, h2]
    by_cases hl : (pyStrip (subCodeHead (pyStrip (l.take a.preLen)))).isEmpty
    · rw [hl]
      simp only [if_true]
    · rw [Bool.not_eq_true] at hl
      rw [hl]
      simp only [Bool.false_eq_true, if_false, h3]
  · intro l y m a h1 h2 h3
    simp only [parse_transaction_line, h1, h2]
    have : (pyStrip (subCodeHead (pyStrip (l.take a.preLen)))).isEmpty = true := by
      rw [h3]
      rfl
    rw [this]
    simp only [if_true]

/-- The captures of the coded-line pattern on
`"0016BK/06 01] FRAIS DIVERS 31 02 2025 33,00"`. -/
def mgFeb31 : MainGroups :=
  ⟨"06".toList, "01".toList, "FRAIS DIVERS".toList, "31".toList, "02".toList,
   "2025".toList, some "33,00".toList, none⟩

/-- Witness for `c6_amended_skip_conditions` at a coded line whose value date
(February 31) is invalid. -/
theorem c6_amended_witness :
    parse_transaction_line
      "0016BK/06 01] FRAIS DIVERS 31 02 2025 33,00".toList 2025 1 = none :=
  c6_amended_skip_conditions.2.1
    "0016BK/06 01] FRAIS DIVERS 31 02 2025 33,00".toList 2025 1 mgFeb31
    (by decide) (by decide)
